import Mathlib

/- Verification development for the polygon polyrhythm sequencer:
   the scale model (src/src/components/ScaleSystem.ts), the rotational
   scheduler (the two App variants in src/unnamed/part_003 and
   src/unnamed/part_004) and the voice envelope scheduling
   (src/src/audio/AudioEngine.ts and src/unnamed/part_000). -/

/-! ## JavaScript-style list helpers -/

/-- JS `Array.prototype.indexOf` on a list of strings: the index of the
first occurrence, `-1` when the element is absent. -/
def jsIndexOf (l : List String) (s : String) : Int :=
  match l with
  | [] => -1
  | x :: xs =>
      if x = s then 0
      else
        let r := jsIndexOf xs s
        if r = -1 then -1 else r + 1

/-- JS array subscript `l[i]`: `undefined` (here `none`) outside bounds,
including all negative indices. -/
def jsGet (l : List String) (i : Int) : Option String :=
  if 0 ≤ i then l.get? i.toNat else none

theorem jsIndexOf_of_not_mem {l : List String} {s : String} (h : s ∉ l) :
    jsIndexOf l s = -1 := by
  induction l with
  | nil => rfl
  | cons x xs ih =>
      have hx : ¬ (x = s) := by
        intro he
        exact h (he ▸ List.mem_cons_self x xs)
      have hs : s ∉ xs := fun hm => h (List.mem_cons_of_mem x hm)
      simp [jsIndexOf, hx, ih hs]

theorem jsIndexOf_nonneg_of_mem {l : List String} {s : String} (h : s ∈ l) :
    0 ≤ jsIndexOf l s := by
  induction l with
  | nil => cases h
  | cons x xs ih =>
      by_cases hx : x = s
      · simp [jsIndexOf, hx]
      · have hs : s ∈ xs := by
          rcases List.mem_cons.mp h with h1 | h1
          · exact absurd h1.symm hx
          · exact h1
        have h0 := ih hs
        simp only [jsIndexOf, if_neg hx]
        have hne : jsIndexOf xs s ≠ -1 := by omega
        simp only [if_neg hne]
        omega

/-- Reading a list back at the position `indexOf` found: the element itself
when present, `undefined` when absent. -/
theorem jsGet_jsIndexOf (l : List String) (s : String) :
    jsGet l (jsIndexOf l s) = if s ∈ l then some s else none := by
  induction l with
  | nil => simp [jsGet, jsIndexOf]
  | cons x xs ih =>
      by_cases hx : x = s
      · subst hx
        simp [jsGet, jsIndexOf]
      · by_cases hs : s ∈ xs
        · have h0 := jsIndexOf_nonneg_of_mem hs
          have hne : jsIndexOf xs s ≠ -1 := by omega
          simp only [jsIndexOf, if_neg hx, if_neg hne]
          have hmem : s ∈ x :: xs := List.mem_cons.mpr (Or.inr hs)
          simp only [if_pos hmem] at *
          have htn : (jsIndexOf xs s + 1).toNat = (jsIndexOf xs s).toNat + 1 := by omega
          simp only [jsGet, if_pos (by omega : (0:Int) ≤ jsIndexOf xs s + 1), htn,
            List.get?_cons_succ]
          simpa [jsGet, if_pos h0, if_pos hs] using ih
        · have hnm : s ∉ x :: xs := by
            intro hm
            rcases List.mem_cons.mp hm with h1 | h1
            · exact hx h1.symm
            · exact hs h1
          rw [jsIndexOf_of_not_mem hnm]
          simp [jsGet, hnm]

theorem jsGet_of_mem {l : List String} {s : String} (h : s ∈ l) :
    jsGet l (jsIndexOf l s) = some s := by
  rw [jsGet_jsIndexOf, if_pos h]

/-! ## Scale model (src/src/components/ScaleSystem.ts) -/

/-- The first half (C to F) of the chromatic ordering of ScaleSystem.ts. -/
def noteOrderLow : List String :=
  ["C", "C#", "D", "D#", "E", "F"]

/-- The second half (F# to B) of the chromatic ordering of ScaleSystem.ts. -/
def noteOrderHigh : List String :=
  ["F#", "G", "G#", "A", "A#", "B"]

/-- The twelve-tone chromatic ordering `noteOrder` of ScaleSystem.ts:
C, C#, D, D#, E, F, F#, G, G#, A, A#, B in index order 0..11. -/
def noteOrder : List String :=
  noteOrderLow ++ noteOrderHigh

/-- The `scaleIntervals` table of ScaleSystem.ts. -/
def scaleIntervalTable : List (String × List Nat) :=
  [("Major", [0, 2, 4, 5, 7, 9, 11]),
   ("Minor", [0, 2, 3, 5, 7, 8, 10]),
   ("Pentatonic", [0, 2, 4, 7, 9]),
   ("Dorian", [0, 2, 3, 5, 7, 9, 10]),
   ("Mixolydian", [0, 2, 4, 5, 7, 9, 10])]

/-- `scaleIntervals[scaleName as keyof ...] || scaleIntervals.Major`:
lookup with fall-back to the Major pattern for unknown names. -/
def lookupIntervals (name : String) : List Nat :=
  match scaleIntervalTable.find? (fun p => p.1 = name) with
  | some p => p.2
  | none => [0, 2, 4, 5, 7, 9, 11]

/-- `getScaleNotes` of ScaleSystem.ts:
`intervals.map(interval => noteOrder[(rootIndex + interval) % 12])`.
The JS `%` is truncated remainder (`Int.tmod`) and an out-of-range read
yields `undefined` (`none`), which happens exactly when `root` is not one
of the twelve names (then `rootIndex = -1`). -/
def getScaleNotes (scaleName root : String) : List (Option String) :=
  (lookupIntervals scaleName).map
    (fun (interval : Nat) =>
      jsGet noteOrder (Int.tmod (jsIndexOf noteOrder root + (interval : Int)) 12))

/-- `Math.abs(currentIndex - scaleIndex)`, the chromatic distance used by
the remap loop of `updatePolygonNotesForNewScale`. -/
def chromDist (a b : Int) : Nat := (a - b).natAbs

/-- The `for (const scaleIndex of newScaleIndices)` loop of
`updatePolygonNotesForNewScale`: keep the first index seen at the strictly
smallest distance. -/
def remapLoop (ci : Int) : List Int → Int → Nat → Int
  | [], best, _ => best
  | x :: xs, best, bestDist =>
      if chromDist ci x < bestDist then remapLoop ci xs x (chromDist ci x)
      else remapLoop ci xs best bestDist

/-- `noteOrder.indexOf` applied to an entry of a scale-note list, which may
be `undefined`; `indexOf(undefined)` is `-1`. -/
def jsIndexOfOpt (l : List String) (x : Option String) : Int :=
  match x with
  | some s => jsIndexOf l s
  | none => -1

/-- The per-note body of `updatePolygonNotesForNewScale` (ScaleSystem.ts
lines 59-83): falsy notes map to `null`; a note still in the new scale is
kept; otherwise the chromatically nearest scale member wins, ties to the
first encountered.  An empty scale list leaves `closestIndex` undefined,
so the array read returns `undefined` (`none`). -/
def remapNote (newScaleNotes : List (Option String)) (note : Option String) : Option String :=
  match note with
  | none => none
  | some s =>
      if s = "" then none
      else if some s ∈ newScaleNotes then some s
      else
        match newScaleNotes.map (jsIndexOfOpt noteOrder) with
        | [] => none
        | c0 :: rest =>
            jsGet noteOrder
              (remapLoop (jsIndexOf noteOrder s) (c0 :: rest) c0
                (chromDist (jsIndexOf noteOrder s) c0))

/-- The polygon record, with the fields the core algorithms read
(src/unnamed/part_003 `interface Polygon`; display-only fields omitted). -/
structure Polygon where
  id : Nat
  sides : Nat
  active : Bool
  notes : List (Option String)
deriving DecidableEq

/-- The per-polygon update of `updatePolygonNotesForNewScale`:
`{ ...polygon, notes: updatedNotes }`. -/
def updatePolygonNotes (selectedScale rootNote : String) (p : Polygon) : Polygon :=
  { p with notes := p.notes.map (remapNote (getScaleNotes selectedScale rootNote)) }

/-- `updatePolygonNotesForNewScale` of ScaleSystem.ts: remap every polygon
and the selected polygon (when present) against the new scale, returning
`(updatedPolygons, updatedSelectedPolygon)`. -/
def updatePolygonNotesForNewScale (polygons : List Polygon)
    (selectedPolygon : Option Polygon) (selectedScale rootNote : String) :
    List Polygon × Option Polygon :=
  (polygons.map (updatePolygonNotes selectedScale rootNote),
   selectedPolygon.map (updatePolygonNotes selectedScale rootNote))

/-! ## JS number semantics for the animation step (src/unnamed/part_003, `animate`) -/

/-- A JS double restricted to the values the animation arithmetic can
produce: an exact rational, the two infinities, or NaN. -/
inductive JSNum where
  | fin : ℚ → JSNum
  | posInf : JSNum
  | negInf : JSNum
  | nan : JSNum
deriving DecidableEq

/-- JS division, including division by zero and the non-finite cases. -/
def jsDiv : JSNum → JSNum → JSNum
  | JSNum.nan, _ => JSNum.nan
  | _, JSNum.nan => JSNum.nan
  | JSNum.fin a, JSNum.fin b =>
      if b = 0 then
        if a = 0 then JSNum.nan else if 0 < a then JSNum.posInf else JSNum.negInf
      else JSNum.fin (a / b)
  | JSNum.fin _, JSNum.posInf => JSNum.fin 0
  | JSNum.fin _, JSNum.negInf => JSNum.fin 0
  | JSNum.posInf, JSNum.fin b => if 0 ≤ b then JSNum.posInf else JSNum.negInf
  | JSNum.negInf, JSNum.fin b => if 0 ≤ b then JSNum.negInf else JSNum.posInf
  | JSNum.posInf, JSNum.posInf => JSNum.nan
  | JSNum.posInf, JSNum.negInf => JSNum.nan
  | JSNum.negInf, JSNum.posInf => JSNum.nan
  | JSNum.negInf, JSNum.negInf => JSNum.nan

/-- JS subtraction on the same domain. -/
def jsSub : JSNum → JSNum → JSNum
  | JSNum.nan, _ => JSNum.nan
  | _, JSNum.nan => JSNum.nan
  | JSNum.fin a, JSNum.fin b => JSNum.fin (a - b)
  | JSNum.fin _, JSNum.posInf => JSNum.negInf
  | JSNum.fin _, JSNum.negInf => JSNum.posInf
  | JSNum.posInf, JSNum.fin _ => JSNum.posInf
  | JSNum.negInf, JSNum.fin _ => JSNum.negInf
  | JSNum.posInf, JSNum.posInf => JSNum.nan
  | JSNum.posInf, JSNum.negInf => JSNum.posInf
  | JSNum.negInf, JSNum.posInf => JSNum.negInf
  | JSNum.negInf, JSNum.negInf => JSNum.nan

/-- JS multiplication on the same domain. -/
def jsMul : JSNum → JSNum → JSNum
  | JSNum.nan, _ => JSNum.nan
  | _, JSNum.nan => JSNum.nan
  | JSNum.fin a, JSNum.fin b => JSNum.fin (a * b)
  | JSNum.fin a, JSNum.posInf =>
      if a = 0 then JSNum.nan else if 0 < a then JSNum.posInf else JSNum.negInf
  | JSNum.fin a, JSNum.negInf =>
      if a = 0 then JSNum.nan else if 0 < a then JSNum.negInf else JSNum.posInf
  | JSNum.posInf, JSNum.fin b =>
      if b = 0 then JSNum.nan else if 0 < b then JSNum.posInf else JSNum.negInf
  | JSNum.negInf, JSNum.fin b =>
      if b = 0 then JSNum.nan else if 0 < b then JSNum.negInf else JSNum.posInf
  | JSNum.posInf, JSNum.posInf => JSNum.posInf
  | JSNum.posInf, JSNum.negInf => JSNum.negInf
  | JSNum.negInf, JSNum.posInf => JSNum.negInf
  | JSNum.negInf, JSNum.negInf => JSNum.posInf

/-- JS `Math.floor` on the same domain. -/
def jsFloor : JSNum → JSNum
  | JSNum.fin a => JSNum.fin (⌊a⌋ : ℤ)
  | JSNum.posInf => JSNum.posInf
  | JSNum.negInf => JSNum.negInf
  | JSNum.nan => JSNum.nan

/-- The per-frame angle computation of `animate`
(src/unnamed/part_003 lines 217-222), carried out in JS number semantics:
`secondsPerRevolution = 60 / rpm; revolutions = elapsed / secondsPerRevolution;
progress = revolutions - floor(revolutions); newAngle = progress * 360`.
`elapsed` is the elapsed wall-clock time in seconds (a real measurement,
hence finite). -/
def animateNewAngle (rpm : JSNum) (elapsed : ℚ) : JSNum :=
  let secondsPerRevolution := jsDiv (JSNum.fin 60) rpm
  let revolutions := jsDiv (JSNum.fin elapsed) secondsPerRevolution
  let progress := jsSub revolutions (jsFloor revolutions)
  jsMul progress (JSNum.fin 360)

/-- The same angle computation restricted to a positive, finite RPM, as a
rational; used by the frame runs below. -/
def animAngle (rpm elapsed : ℚ) : ℚ :=
  let secondsPerRevolution := 60 / rpm
  let revolutions := elapsed / secondsPerRevolution
  let progress := revolutions - ((⌊revolutions⌋ : ℤ) : ℚ)
  progress * 360

/-- On positive finite RPM the JS-number computation agrees with the
rational one. -/
theorem animateNewAngle_fin (rpm elapsed : ℚ) (h : 0 < rpm) :
    animateNewAngle (JSNum.fin rpm) elapsed = JSNum.fin (animAngle rpm elapsed) := by
  have h1 : rpm ≠ 0 := ne_of_gt h
  have h2 : (60 : ℚ) / rpm ≠ 0 := by positivity
  simp [animateNewAngle, animAngle, jsDiv, jsSub, jsMul, jsFloor, h1, h2]

/-! ## Rotational scheduler: trigger checks
(src/unnamed/part_003 `checkNoteTriggers`, proximity variant, and
src/unnamed/part_004 `checkNoteTriggers`, crossing variant) -/

/-- `lastTriggerTimeRef.current` together with the list of emitted
triggers: each play records `(polygonId, vertexIndex, note, timestamp)`. -/
structure TrigState where
  lastTrigger : List ((Nat × Nat × String) × ℚ)
  plays : List (Nat × Nat × String × ℚ)
deriving DecidableEq

/-- Fresh scheduler state: no timestamps recorded, nothing played. -/
def initTrigState : TrigState := ⟨[], []⟩

/-- `lastTriggerTimeRef.current[noteId]`: most recent timestamp for a key,
`undefined` when the key was never written. -/
def lookupTrigger (m : List ((Nat × Nat × String) × ℚ)) (k : Nat × Nat × String) : Option ℚ :=
  (m.find? (fun e => e.1 = k)).map (fun e => e.2)

/-- `(i * anglePerVertex) % 360` on nonnegative rationals (JS `%` on
nonnegative operands). -/
def jsModQ (a b : ℚ) : ℚ := a - b * ((⌊a / b⌋ : ℤ) : ℚ)

/-- `if (!lastTrigger || now - lastTrigger > minInterval)`: emit the
trigger and record the timestamp, else leave the state unchanged.  A
stored timestamp of 0 is falsy in JS and also fires. -/
def fireIfAllowed (minInterval now : ℚ) (key : Nat × Nat × String) (st : TrigState) : TrigState :=
  match lookupTrigger st.lastTrigger key with
  | none => ⟨(key, now) :: st.lastTrigger, st.plays ++ [(key.1, key.2.1, key.2.2, now)]⟩
  | some lastT =>
      if lastT = 0 ∨ now - lastT > minInterval then
        ⟨(key, now) :: st.lastTrigger, st.plays ++ [(key.1, key.2.1, key.2.2, now)]⟩
      else st

/-- `Math.max(50, (60 / rpmRef.current) * 1000 / polygons.length)`
(part_003 line 189). -/
def minIntervalProx (rpm : ℚ) (numPolygons : Nat) : ℚ :=
  max 50 (60 / rpm * 1000 / (numPolygons : ℚ))

/-- `Math.max(100, (60 / currentRPM) * 1000 / 4)` (part_004 line 1603). -/
def minIntervalCross (rpm : ℚ) : ℚ :=
  max 100 (60 / rpm * 1000 / 4)

/-- One vertex of the part_003 proximity check: fire when the playhead is
within 5 degrees of the vertex (`angleDiff < 5 || angleDiff > 355`) and
the per-key minimum interval allows it. -/
def checkVertexProx (numPolygons : Nat) (rpm now angle : ℚ) (p : Polygon)
    (st : TrigState) (i : Nat) : TrigState :=
  let anglePerVertex := 360 / (p.sides : ℚ)
  let vertexAngle := jsModQ ((i : ℚ) * anglePerVertex) 360
  let angleDiff := |angle - vertexAngle|
  if angleDiff < 5 ∨ angleDiff > 355 then
    match p.notes.get? i with
    | some (some note) =>
        if note = "" then st
        else fireIfAllowed (minIntervalProx rpm numPolygons) now (p.id, i, note) st
    | _ => st
  else st

/-- `checkNoteTriggers` of src/unnamed/part_003 (lines 173-199): the
proximity variant, iterating active polygons and their vertices in order. -/
def checkNoteTriggersProx (polygons : List Polygon) (rpm now angle : ℚ)
    (st : TrigState) : TrigState :=
  polygons.foldl
    (fun st p =>
      if p.active then
        (List.range p.sides).foldl (checkVertexProx polygons.length rpm now angle p) st
      else st)
    st

/-- One vertex of the part_004 crossing check: the playhead swept from
`lastAngle` to `angle` across the vertex angle, with the wraparound case
when the angle decreased. -/
def checkVertexCross (rpm now angle lastAngle : ℚ) (p : Polygon)
    (st : TrigState) (i : Nat) : TrigState :=
  let anglePerVertex := 360 / (p.sides : ℚ)
  let vertexAngle := jsModQ ((i : ℚ) * anglePerVertex) 360
  let crossedVertex :=
    if lastAngle < angle then lastAngle < vertexAngle ∧ vertexAngle ≤ angle
    else lastAngle < vertexAngle ∨ vertexAngle ≤ angle
  if crossedVertex then
    match p.notes.get? i with
    | some (some note) =>
        if note = "" then st
        else fireIfAllowed (minIntervalCross rpm) now (p.id, i, note) st
    | _ => st
  else st

/-- `checkNoteTriggers` of src/unnamed/part_004 (lines 1575-1614): the
wraparound-aware crossing variant. -/
def checkNoteTriggersCross (polygons : List Polygon) (rpm now angle lastAngle : ℚ)
    (st : TrigState) : TrigState :=
  polygons.foldl
    (fun st p =>
      if p.active then
        (List.range p.sides).foldl (checkVertexCross rpm now angle lastAngle p) st
      else st)
    st

/-- The number of recorded plays of vertex `i`. -/
def vertexPlays (st : TrigState) (i : Nat) : Nat :=
  (st.plays.filter (fun e => e.2.1 = i)).length

/-- The timestamps at which vertex `i` played, in order. -/
def vertexPlayTimes (st : TrigState) (i : Nat) : List ℚ :=
  (st.plays.filter (fun e => e.2.1 = i)).map (fun e => e.2.2.2)

/-- Per-vertex play counts for a polygon with `s` vertices. -/
def allCounts (st : TrigState) (s : Nat) : List Nat :=
  (List.range s).map (vertexPlays st)

/-- A single active regular polygon with every vertex carrying the pitch
C, as in the app state after the user fills every vertex. -/
def regularPoly (s : Nat) : Polygon :=
  ⟨1, s, true, List.replicate s (some "C")⟩

/-- The default triangle of the app (part_003 initial state):
3 sides, active, notes C, E, G. -/
def trianglePoly : Polygon :=
  ⟨1, 3, true, [some "C", some "E", some "G"]⟩

/-- One playback session of the part_004 variant at RPM 60 and an exact
60 frames per second, starting from angle 0 and a fresh trigger state:
frame `k` runs at `k/60` seconds (timestamp `1000*k/60` ms) and sees the
previous frame's angle as `lastAngle`, exactly as the `animate` loop of
part_004 threads it. -/
def runCross (s frames : Nat) : TrigState :=
  (List.range frames).foldl
    (fun st k =>
      checkNoteTriggersCross [regularPoly s] 60
        (1000 * ((k + 1 : Nat) : ℚ) / 60)
        (animAngle 60 (((k + 1 : Nat) : ℚ) / 60))
        (animAngle 60 ((k : ℚ) / 60)) st)
    initTrigState

/-- One playback session of the part_003 proximity variant at RPM 60 and
an exact 60 frames per second with the default triangle: 120 frames span
exactly two revolutions. -/
def runProx (frames : Nat) : TrigState :=
  (List.range frames).foldl
    (fun st k =>
      checkNoteTriggersProx [trianglePoly] 60
        (1000 * ((k + 1 : Nat) : ℚ) / 60)
        (animAngle 60 (((k + 1 : Nat) : ℚ) / 60)) st)
    initTrigState

/-- The RPM the slider holds at frame `k` of the mid-revolution RPM-change
scenario: 15 until the 2 second mark (frame 120), then 150. -/
def rpmAtFrame (frame : Nat) : ℚ := if frame ≤ 120 then 15 else 150

/-- A single active square with every vertex carrying C. -/
def squarePoly : Polygon :=
  ⟨1, 4, true, List.replicate 4 (some "C")⟩

/-- The part_003 playback session in which the RPM is changed from 15 to
150 at the 2 second mark: the `animate` loop recomputes the angle from
the total elapsed time and the current RPM, so the phase jumps at the
change. -/
def runRpmJump (frames : Nat) : TrigState :=
  (List.range frames).foldl
    (fun st k =>
      checkNoteTriggersProx [squarePoly] (rpmAtFrame (k + 1))
        (1000 * ((k + 1 : Nat) : ℚ) / 60)
        (animAngle (rpmAtFrame (k + 1)) (((k + 1 : Nat) : ℚ) / 60)) st)
    initTrigState

/-! ## Claims C1, C3, C4: scheduler behaviour -/

set_option maxRecDepth 1000000 in
set_option maxHeartbeats 4000000 in
theorem runCross_counts : ∀ s : Nat, s < 13 → 3 ≤ s →
    allCounts (runCross s 60) s = List.replicate s 1 ∧
    allCounts (runCross s 120) s = List.replicate s 2 := by
  with_unfolding_all decide

theorem allCounts_eq_replicate {st : TrigState} {s c : Nat}
    (h : allCounts st s = List.replicate s c) {i : Nat} (hi : i < s) :
    vertexPlays st i = c := by
  have hmem : vertexPlays st i ∈ allCounts st s :=
    List.mem_map_of_mem (vertexPlays st) (List.mem_range.mpr hi)
  rw [h] at hmem
  exact List.eq_of_mem_replicate hmem

/-- Claim C1 (amended): with the wraparound-aware crossing detector of
src/unnamed/part_004, at RPM 60 and 60 frames per second, every vertex of
a single active polygon with 3 to 12 sides whose vertices all carry a
pitch fires exactly once per full revolution of the playhead: once after
the 60 frames of the first revolution, twice after the 120 frames of two
revolutions — never zero times and never more than once per revolution.
(The part_003 proximity variant violates the original claim; see the
counterexample theorem.) -/
theorem crossDetector_fires_exactly_once_per_revolution :
    ∀ s : Nat, 3 ≤ s → s < 13 → ∀ i : Nat, i < s →
      vertexPlays (runCross s 60) i = 1 ∧ vertexPlays (runCross s 120) i = 2 := by
  intro s h3 h13 i hi
  rcases runCross_counts s h13 h3 with ⟨h60, h120⟩
  exact ⟨allCounts_eq_replicate h60 hi, allCounts_eq_replicate h120 hi⟩

theorem crossDetector_fires_exactly_once_per_revolution_witness :
    vertexPlays (runCross 3 60) 0 = 1 ∧ vertexPlays (runCross 3 120) 0 = 2 :=
  crossDetector_fires_exactly_once_per_revolution 3 (by decide) (by decide) 0 (by decide)

set_option maxRecDepth 1000000 in
set_option maxHeartbeats 4000000 in
/-- Claim C1 (counterexample): with the part_003 proximity trigger check,
a single active triangle at RPM 60 and 60 frames per second, the playhead
completes two full revolutions during frames 1..120 (timestamps up to
2000 ms), yet vertex 0 fires only at 1000 ms: in the second revolution it
fires zero times, because the minimum re-trigger interval
`max(50, (60/60)*1000/1) = 1000` ms equals the revolution period and the
strict comparison suppresses the next crossing.  This refutes "one full
revolution causes the trigger check to fire that vertex exactly once:
never zero times" at the claim's own example ratio. -/
theorem proxDetector_misses_second_revolution :
    vertexPlayTimes (runProx 120) 0 = [1000] ∧
    minIntervalProx 60 1 = 1000 := by
  with_unfolding_all decide

/-- Claim C3 (code behaviour at the failing input): the per-frame angle
computation of `animate` has no guard on RPM.  With `rpm = NaN` the
published angle is NaN; with `rpm = -60` at elapsed 1/4 s the angle is
270°, i.e. the playhead advances (backwards) instead of pausing; with
`rpm = 0` the angle collapses to 0 rather than holding its value.  The
claim's required behaviour (treat non-positive/non-finite RPM as paused,
never publish NaN) is not implemented. -/
theorem animate_no_rpm_guard :
    animateNewAngle JSNum.nan 1 = JSNum.nan ∧
    animateNewAngle (JSNum.fin (-60)) (1/4) = JSNum.fin 270 ∧
    animateNewAngle (JSNum.fin 0) 1 = JSNum.fin 0 := by
  with_unfolding_all decide

set_option maxRecDepth 1000000 in
set_option maxHeartbeats 4000000 in
/-- Claim C4 (code behaviour at the failing input): a single active
square (vertices at 0°, 90°, 180°, 270°, all carrying a pitch), 60 frames
per second, RPM 15 for the first 2 seconds and 150 afterwards.  The
`animate` loop recomputes the angle as `frac(totalElapsed * rpm/60) * 360`,
so at the RPM change the phase jumps from 180° back to 15°, and the 90°
vertex — already passed and fired at 950 ms — fires again at 2100 ms,
well before the revolution begun at t = 0 would have completed (4000 ms
at the original RPM).  The claim that an already-passed vertex never
re-fires due to an RPM change is violated. -/
theorem rpm_change_refires_passed_vertex :
    vertexPlayTimes (runRpmJump 126) 1 = [950, 2100] := by
  with_unfolding_all decide

/-! ## Voice synthesis engine
(src/src/audio/AudioEngine.ts `playNote` / `playNoteWithPolygonSynth`,
and src/unnamed/part_000 `SynthEngine.playNoteWithPolygonSynth`) -/

/-- A scheduled gain-automation event: `setValueAtTime` or
`linearRampToValueAtTime`, each carrying `(value, time)`. -/
inductive GainEvent where
  | setValue (value time : ℚ)
  | linearRamp (value time : ℚ)
deriving DecidableEq

/-- The time of a gain event. -/
def GainEvent.time : GainEvent → ℚ
  | GainEvent.setValue _ t => t
  | GainEvent.linearRamp _ t => t

/-- `PolygonSynthSettings` (src/unnamed/part_000): wave shape, enabled
flag and optional ADSR fields. -/
structure PolygonSynthSettings where
  waveShape : String
  enabled : Bool
  attack : Option ℚ := none
  decay : Option ℚ := none
  sustain : Option ℚ := none
  release : Option ℚ := none
deriving DecidableEq

/-- JS `x || d` on an optional numeric field: `undefined` and `0` are
falsy and yield the default. -/
def jsOrDefault (v : Option ℚ) (d : ℚ) : ℚ :=
  match v with
  | none => d
  | some x => if x = 0 then d else x

/-- The `noteFrequencies` table shared by AudioEngine.ts and
src/unnamed/part_000. -/
def noteFrequencies : List (String × ℚ) :=
  [("C", 261.63), ("C#", 277.18), ("D", 293.66), ("D#", 311.13),
   ("E", 329.63), ("F", 349.23), ("F#", 369.99), ("G", 392.00),
   ("G#", 415.30), ("A", 440.00), ("A#", 466.16), ("B", 493.88)]

/-- `this.noteFrequencies[noteName]`: `undefined` for unknown names. -/
def lookupFreq (noteName : String) : Option ℚ :=
  (noteFrequencies.find? (fun p => p.1 = noteName)).map (fun p => p.2)

/-- The ADSR gain schedule of `playNoteWithPolygonSynth`
(AudioEngine.ts lines 282-300, identical in part_000 lines 83-101):
attack and decay ramps are always scheduled; when
`releaseStart = now + duration - release` is strictly after
`sustainStart = now + attack + decay` a sustain hold is set and the
release ramp ends at `now + duration`; otherwise only a final
`linearRampToValueAtTime(0, now + duration)` is appended — the earlier
ramps are not cancelled. -/
def envelopeSchedule (now duration volume : ℚ) (s : PolygonSynthSettings) : List GainEvent :=
  let attack := jsOrDefault s.attack 0.01
  let decay := jsOrDefault s.decay 0.1
  let sustain := jsOrDefault s.sustain 0.8
  let release := jsOrDefault s.release 0.3
  let sustainStart := now + attack + decay
  let releaseStart := now + duration - release
  let base := [GainEvent.setValue 0 now,
               GainEvent.linearRamp volume (now + attack),
               GainEvent.linearRamp (volume * sustain) (now + attack + decay)]
  if releaseStart > sustainStart then
    base ++ [GainEvent.setValue (volume * sustain) sustainStart,
             GainEvent.linearRamp 0 (now + duration)]
  else
    base ++ [GainEvent.linearRamp 0 (now + duration)]

/-- The observable footprint of one voice-playing call: which audio
nodes were created, the scheduled gain automation, the oscillator start
and stop times, and whether the voice was registered for cleanup. -/
structure VoiceEffect where
  oscCreated : Bool
  gainCreated : Bool
  filterCreated : Bool
  pannerCreated : Bool
  gainEvents : List GainEvent
  oscStart : Option ℚ
  oscStop : Option ℚ
  registered : Bool
deriving DecidableEq

/-- The footprint of a call that does nothing. -/
def noEffect : VoiceEffect :=
  ⟨false, false, false, false, [], none, none, false⟩

namespace AudioEngine

/-- `AudioEngine.playNote` (AudioEngine.ts lines 83-174) on an
initialized engine, called as `playNote(noteName, duration, { volume })`:
default settings attack 0.1, decay 0.2, sustain 0.7, release 0.3 with the
caller's volume; creates oscillator, gain, filter and panner, schedules
the default ADSR, starts at `now` and stops at `now + duration`. Unknown
notes warn and return without allocating. -/
def playNote (noteName : String) (duration volume now : ℚ) : VoiceEffect :=
  match lookupFreq noteName with
  | none => noEffect
  | some _ =>
      { oscCreated := true, gainCreated := true,
        filterCreated := true, pannerCreated := true,
        gainEvents :=
          [GainEvent.setValue 0 now,
           GainEvent.linearRamp volume (now + 0.1),
           GainEvent.linearRamp (volume * 0.7) (now + 0.1 + 0.2),
           GainEvent.setValue (volume * 0.7) (now + 0.1 + 0.2),
           GainEvent.linearRamp 0 (now + duration)],
        oscStart := some now, oscStop := some (now + duration),
        registered := true }

/-- `AudioEngine.playNoteWithPolygonSynth` (AudioEngine.ts lines
239-319) on an initialized engine: a disabled configuration falls back to
the basic synth `playNote(noteName, duration, { volume })`; otherwise an
oscillator, gain node and (unused) filter are created, the polygon ADSR
is scheduled, the oscillator runs from `now` to `now + duration + 0.1`,
and the voice is registered. -/
def playNoteWithPolygonSynth (noteName : String) (duration : ℚ)
    (polygonSettings : PolygonSynthSettings) (volume now : ℚ) : VoiceEffect :=
  if polygonSettings.enabled = false then
    playNote noteName duration volume now
  else
    match lookupFreq noteName with
    | none => noEffect
    | some _ =>
        { oscCreated := true, gainCreated := true,
          filterCreated := true, pannerCreated := false,
          gainEvents := envelopeSchedule now duration volume polygonSettings,
          oscStart := some now, oscStop := some (now + duration + 0.1),
          registered := true }

end AudioEngine

namespace SynthEngine

/-- `SynthEngine.playNoteWithPolygonSynth` (src/unnamed/part_000 lines
47-120): a disabled configuration returns immediately; otherwise an
oscillator and gain node are created, the polygon ADSR is scheduled, the
oscillator runs from `now` to `now + duration + 0.1`, and the voice is
registered. -/
def playNoteWithPolygonSynth (noteName : String) (duration : ℚ)
    (polygonSettings : PolygonSynthSettings) (volume now : ℚ) : VoiceEffect :=
  if polygonSettings.enabled = false then
    noEffect
  else
    match lookupFreq noteName with
    | none => noEffect
    | some _ =>
        { oscCreated := true, gainCreated := true,
          filterCreated := false, pannerCreated := false,
          gainEvents := envelopeSchedule now duration volume polygonSettings,
          oscStart := some now, oscStop := some (now + duration + 0.1),
          registered := true }

end SynthEngine

/-! ## Claims C2, C8: envelope scheduling and the disabled no-op -/

/-- Claim C2 (counterexample): attack 5, decay 5, release 0.3, sustain
defaulted, duration 0.5, volume 0.5, start 0.  `attack + decay = 10`
exceeds the duration, yet the schedule still contains the decay ramp
endpoint at t = 10, far past `duration + release = 0.8`, and is not the
claimed single fade covering `[0, duration]`. -/
theorem envelope_degenerate_not_single_fade :
    GainEvent.linearRamp (2/5) 10 ∈
      envelopeSchedule 0 (1/2) (1/2) ⟨"sine", true, some 5, some 5, none, some (3/10)⟩ ∧
    (10 : ℚ) > 1/2 + 3/10 ∧
    envelopeSchedule 0 (1/2) (1/2) ⟨"sine", true, some 5, some 5, none, some (3/10)⟩ ≠
      [GainEvent.setValue 0 0, GainEvent.linearRamp 0 (1/2)] := by
  with_unfolding_all decide

/-- Claim C2 (amended): whenever the requested duration minus the
release tail does not exceed attack + decay (in particular whenever
`attack + decay ≥ duration`), the code appends a single final
`linearRampToValueAtTime(0, start + duration)` but keeps the attack and
decay ramps, so the schedule is exactly `[set 0 @ start, ramp volume @
start+attack, ramp volume*sustain @ start+attack+decay, ramp 0 @
start+duration]`: the decay ramp endpoint may lie past
`duration + release`, the sustain hold is never set (the only
`setValueAtTime` is the initial zero), and the schedule still ends with
the fade to 0 at `start + duration`.  No exception is thrown: the
schedule is total. -/
theorem envelope_degenerate_schedule (now dur vol : ℚ) (st : PolygonSynthSettings)
    (hdeg : now + dur - jsOrDefault st.release 0.3 ≤
      now + jsOrDefault st.attack 0.01 + jsOrDefault st.decay 0.1) :
    envelopeSchedule now dur vol st =
      [GainEvent.setValue 0 now,
       GainEvent.linearRamp vol (now + jsOrDefault st.attack 0.01),
       GainEvent.linearRamp (vol * jsOrDefault st.sustain 0.8)
         (now + jsOrDefault st.attack 0.01 + jsOrDefault st.decay 0.1),
       GainEvent.linearRamp 0 (now + dur)] ∧
    (∀ v t, GainEvent.setValue v t ∈ envelopeSchedule now dur vol st → v = 0 ∧ t = now) ∧
    (envelopeSchedule now dur vol st).getLast? =
      some (GainEvent.linearRamp 0 (now + dur)) := by
  have hcond : ¬ (now + dur - jsOrDefault st.release 0.3 >
      now + jsOrDefault st.attack 0.01 + jsOrDefault st.decay 0.1) := not_lt.mpr hdeg
  refine ⟨?_, ?_, ?_⟩
  · simp [envelopeSchedule, hcond]
  · intro v t h
    simp only [envelopeSchedule, hcond, if_neg, ite_false, List.cons_append,
      List.nil_append, List.mem_cons, List.not_mem_nil, or_false] at h
    rcases h with h | h | h | h <;> simp_all
  · simp [envelopeSchedule, hcond]

theorem envelope_degenerate_schedule_witness :
    envelopeSchedule 0 1 (1/2) ⟨"sine", true, some 1, some 1, none, none⟩ =
      [GainEvent.setValue 0 0,
       GainEvent.linearRamp (1/2) (0 + jsOrDefault (some 1) 0.01),
       GainEvent.linearRamp ((1/2) * jsOrDefault (none : Option ℚ) 0.8)
         (0 + jsOrDefault (some 1) 0.01 + jsOrDefault (some 1) 0.1),
       GainEvent.linearRamp 0 (0 + 1)] ∧
    (∀ v t, GainEvent.setValue v t ∈
      envelopeSchedule 0 1 (1/2) ⟨"sine", true, some 1, some 1, none, none⟩ → v = 0 ∧ t = 0) ∧
    (envelopeSchedule 0 1 (1/2) ⟨"sine", true, some 1, some 1, none, none⟩).getLast? =
      some (GainEvent.linearRamp 0 (0 + 1)) :=
  envelope_degenerate_schedule 0 1 (1/2) ⟨"sine", true, some 1, some 1, none, none⟩
    (by with_unfolding_all norm_num [jsOrDefault])

/-- Claim C8 (counterexample): with a disabled configuration,
`AudioEngine.playNoteWithPolygonSynth` is not a no-op — it falls back to
the basic synth, which creates an oscillator (and gain/filter/panner),
schedules a default envelope and registers the voice. -/
theorem disabled_audioEngine_not_noop :
    (AudioEngine.playNoteWithPolygonSynth "C" 1
      ⟨"sine", false, none, none, none, none⟩ (1/2) 0).oscCreated = true ∧
    (AudioEngine.playNoteWithPolygonSynth "C" 1
      ⟨"sine", false, none, none, none, none⟩ (1/2) 0).registered = true ∧
    AudioEngine.playNoteWithPolygonSynth "C" 1
      ⟨"sine", false, none, none, none, none⟩ (1/2) 0 ≠ noEffect := by
  with_unfolding_all decide

/-- Claim C8 (amended): when the configuration's enabled flag is false,
`SynthEngine.playNoteWithPolygonSynth` is a true no-op (no resources, no
events, nothing registered), while `AudioEngine.playNoteWithPolygonSynth`
instead delegates to the basic synth `playNote` with the caller's volume. -/
theorem disabled_synth_noop (noteName : String) (duration : ℚ)
    (st : PolygonSynthSettings) (volume now : ℚ) (h : st.enabled = false) :
    SynthEngine.playNoteWithPolygonSynth noteName duration st volume now = noEffect ∧
    AudioEngine.playNoteWithPolygonSynth noteName duration st volume now =
      AudioEngine.playNote noteName duration volume now := by
  constructor
  · simp [SynthEngine.playNoteWithPolygonSynth, h]
  · simp [AudioEngine.playNoteWithPolygonSynth, h]

theorem disabled_synth_noop_witness :
    SynthEngine.playNoteWithPolygonSynth "C" 1
      ⟨"sine", false, none, none, none, none⟩ (1/2) 0 = noEffect ∧
    AudioEngine.playNoteWithPolygonSynth "C" 1
      ⟨"sine", false, none, none, none, none⟩ (1/2) 0 =
      AudioEngine.playNote "C" 1 (1/2) 0 :=
  disabled_synth_noop "C" 1 ⟨"sine", false, none, none, none, none⟩ (1/2) 0 rfl

/-! ## Claim C9: minimum re-trigger interval monotonicity -/

set_option maxRecDepth 100000 in
/-- Claim C9 (counterexample): at RPM 60, the part_003 minimum interval
is 1000 ms with one polygon but 500 ms with two — with fewer polygons the
interval is larger, not "no larger" as claimed. -/
theorem minInterval_grows_with_fewer_polygons :
    minIntervalProx 60 1 = 1000 ∧ minIntervalProx 60 2 = 500 ∧
    ¬ minIntervalProx 60 1 ≤ minIntervalProx 60 2 := by
  with_unfolding_all decide

/-- Claim C9 (amended): both computed minimum intervals are strictly
decreasing in RPM above their floors (50 ms resp. 100 ms) and decreasing
in RPM in general; but the part_003 interval divides by the polygon
count, so it grows (weakly) as polygons become fewer, and the part_004
interval ignores the polygon count entirely. -/
theorem minInterval_monotonicity (r1 r2 : ℚ) (n m : Nat)
    (h1 : 0 < r1) (h2 : r1 < r2) (hn : 0 < n) (hnm : n ≤ m)
    (hfp : 50 < 60 / r2 * 1000 / (n : ℚ)) (hfc : 100 < 60 / r2 * 1000 / 4) :
    minIntervalProx r2 n < minIntervalProx r1 n ∧
    minIntervalProx r1 m ≤ minIntervalProx r1 n ∧
    minIntervalCross r2 < minIntervalCross r1 := by
  have hn0 : (0 : ℚ) < (n : ℚ) := by exact_mod_cast hn
  have h2pos : (0 : ℚ) < r2 := lt_trans h1 h2
  have h60 : 60 / r2 < 60 / r1 := div_lt_div_of_pos_left (by norm_num) h1 h2
  have hv : 60 / r2 * 1000 / (n : ℚ) < 60 / r1 * 1000 / (n : ℚ) := by
    apply div_lt_div_of_pos_right _ hn0
    exact mul_lt_mul_of_pos_right h60 (by norm_num)
  have hvc : 60 / r2 * 1000 / 4 < 60 / r1 * 1000 / 4 := by
    apply div_lt_div_of_pos_right _ (by norm_num)
    exact mul_lt_mul_of_pos_right h60 (by norm_num)
  refine ⟨?_, ?_, ?_⟩
  · have e2 : minIntervalProx r2 n = 60 / r2 * 1000 / (n : ℚ) :=
      max_eq_right (le_of_lt hfp)
    rw [e2]
    exact lt_of_lt_of_le hv (le_max_right _ _)
  · have hmn : (n : ℚ) ≤ (m : ℚ) := by exact_mod_cast hnm
    have hnum : (0 : ℚ) ≤ 60 / r1 * 1000 := by positivity
    have hvm : 60 / r1 * 1000 / (m : ℚ) ≤ 60 / r1 * 1000 / (n : ℚ) :=
      div_le_div_of_nonneg_left hnum hn0 hmn
    exact max_le_max le_rfl hvm
  · have e2 : minIntervalCross r2 = 60 / r2 * 1000 / 4 :=
      max_eq_right (le_of_lt hfc)
    rw [e2]
    exact lt_of_lt_of_le hvc (le_max_right _ _)

theorem minInterval_monotonicity_witness :
    minIntervalProx 60 1 < minIntervalProx 30 1 ∧
    minIntervalProx 30 2 ≤ minIntervalProx 30 1 ∧
    minIntervalCross 60 < minIntervalCross 30 :=
  minInterval_monotonicity 30 60 1 2 (by norm_num) (by norm_num) (by norm_num)
    (by norm_num) (by norm_num) (by norm_num)

/-! ## Claim C7: stability of the remap -/

set_option maxRecDepth 100000 in
/-- Claim C7 (counterexample): the empty string is a falsy pitch in JS,
so `remapPitch` returns `null` for it rather than returning it unchanged:
`remapNote ns (some "") = none ≠ some ""`. -/
theorem remap_empty_string_not_unchanged :
    remapNote (getScaleNotes "Major" "C") (some "") = none ∧
    (some "" : Option String) ≠ none := by
  with_unfolding_all decide

/-- Claim C7 (amended): the remap returns `null` unchanged for a `null`
pitch, normalizes the empty string to `null` (rather than returning it
unchanged), and returns every nonempty pitch unchanged whenever it is
already a member of the target pitch set. -/
theorem remap_stability (pitch : Option String) (ns : List (Option String)) :
    (pitch = none → remapNote ns pitch = none) ∧
    (pitch = some "" → remapNote ns pitch = none) ∧
    (∀ s, pitch = some s → s ≠ "" → pitch ∈ ns → remapNote ns pitch = pitch) := by
  refine ⟨?_, ?_, ?_⟩
  · rintro rfl
    rfl
  · rintro rfl
    simp [remapNote]
  · rintro s rfl hs hmem
    simp [remapNote, hs, hmem]

theorem remap_stability_witness :
    remapNote [some "C"] none = none ∧
    remapNote [some "C"] (some "") = none ∧
    remapNote [some "C"] (some "C") = some "C" :=
  ⟨(remap_stability none [some "C"]).1 rfl,
   (remap_stability (some "") [some "C"]).2.1 rfl,
   (remap_stability (some "C") [some "C"]).2.2 "C" rfl (by decide) (by decide)⟩

/-! ## Claim C10: domain of getScaleNotes -/

theorem lookupIntervals_head (name : String) : (lookupIntervals name).head? = some 0 := by
  unfold lookupIntervals
  cases h : scaleIntervalTable.find? (fun p => p.1 = name) with
  | none => rfl
  | some p =>
      have hp := List.mem_of_find?_eq_some h
      simp only [scaleIntervalTable, List.mem_cons, List.not_mem_nil, or_false] at hp
      rcases hp with rfl | rfl | rfl | rfl | rfl <;> rfl

set_option maxRecDepth 100000 in
/-- Claim C10: `getScaleNotes` is well defined exactly on the twelve
chromatic roots.  For any scale name (known or unknown) and any root
among the twelve names every returned entry is a valid pitch-class
string from `noteOrder`; but for the root `""` (outside the twelve) the
root index lookup yields `-1`, and the entry produced by interval `0` is
the out-of-range read `noteOrder[-1]`, i.e. `undefined`. -/
theorem getScaleNotes_domain :
    (∀ scaleName root, root ∈ noteOrder →
      ∀ x ∈ getScaleNotes scaleName root, ∃ t, x = some t ∧ t ∈ noteOrder) ∧
    jsIndexOf noteOrder "" = -1 ∧
    (∀ scaleName, (getScaleNotes scaleName "").head? = some none) := by
  refine ⟨?_, by with_unfolding_all decide, ?_⟩
  · intro scaleName root hroot x hx
    unfold getScaleNotes at hx
    obtain ⟨iv, hiv, rfl⟩ := List.mem_map.mp hx
    have ha : 0 ≤ jsIndexOf noteOrder root + (iv : Int) :=
      add_nonneg (jsIndexOf_nonneg_of_mem hroot) (Int.natCast_nonneg iv)
    have h0 : 0 ≤ (jsIndexOf noteOrder root + (iv : Int)).tmod 12 :=
      Int.tmod_nonneg 12 ha
    have h12 : (jsIndexOf noteOrder root + (iv : Int)).tmod 12 < 12 :=
      Int.tmod_lt_of_pos _ (by norm_num)
    have hlt : ((jsIndexOf noteOrder root + (iv : Int)).tmod 12).toNat < noteOrder.length := by
      have : noteOrder.length = 12 := rfl
      omega
    refine ⟨noteOrder.get ⟨((jsIndexOf noteOrder root + (iv : Int)).tmod 12).toNat, hlt⟩,
      ?_, List.get_mem _ _ hlt⟩
    simp [jsGet, h0, List.get?_eq_get hlt]
  · intro scaleName
    unfold getScaleNotes
    rw [List.head?_map, lookupIntervals_head]
    with_unfolding_all decide

theorem getScaleNotes_domain_witness :
    ∃ t, (some "E" : Option String) = some t ∧ t ∈ noteOrder :=
  getScaleNotes_domain.1 "Major" "C" (by decide) (some "E") (by with_unfolding_all decide)

/-! ## Remap loop lemmas (shared by claims C5 and C6) -/

theorem remapLoop_mem (ci : Int) : ∀ (xs : List Int) (best : Int) (d : Nat),
    remapLoop ci xs best d = best ∨ remapLoop ci xs best d ∈ xs := by
  intro xs
  induction xs with
  | nil =>
      intro best d
      exact Or.inl rfl
  | cons x xs ih =>
      intro best d
      by_cases h : chromDist ci x < d
      · have e : remapLoop ci (x :: xs) best d = remapLoop ci xs x (chromDist ci x) := by
          simp [remapLoop, h]
        rw [e]
        rcases ih x (chromDist ci x) with h1 | h1
        · right
          rw [h1]
          exact List.mem_cons_self x xs
        · exact Or.inr (List.mem_cons_of_mem x h1)
      · have e : remapLoop ci (x :: xs) best d = remapLoop ci xs best d := by
          simp [remapLoop, h]
        rw [e]
        rcases ih best d with h1 | h1
        · exact Or.inl h1
        · exact Or.inr (List.mem_cons_of_mem x h1)

theorem remapLoop_min (ci : Int) : ∀ (xs : List Int) (best : Int),
    (remapLoop ci xs best (chromDist ci best) = best ∨
      (remapLoop ci xs best (chromDist ci best) ∈ xs ∧
       chromDist ci (remapLoop ci xs best (chromDist ci best)) < chromDist ci best)) ∧
    chromDist ci (remapLoop ci xs best (chromDist ci best)) ≤ chromDist ci best ∧
    ∀ x ∈ xs, chromDist ci (remapLoop ci xs best (chromDist ci best)) ≤ chromDist ci x := by
  intro xs
  induction xs with
  | nil =>
      intro best
      refine ⟨Or.inl rfl, le_refl _, ?_⟩
      intro x hx
      cases hx
  | cons x xs ih =>
      intro best
      by_cases h : chromDist ci x < chromDist ci best
      · have e : remapLoop ci (x :: xs) best (chromDist ci best) =
            remapLoop ci xs x (chromDist ci x) := by
          simp [remapLoop, h]
        rcases ih x with ⟨hm, hd, hall⟩
        rw [e]
        refine ⟨?_, le_trans hd (le_of_lt h), ?_⟩
        · rcases hm with h1 | ⟨h1, h2⟩
          · refine Or.inr ⟨?_, ?_⟩
            · rw [h1]
              exact List.mem_cons_self x xs
            · rw [h1]
              exact h
          · exact Or.inr ⟨List.mem_cons_of_mem x h1, lt_trans h2 h⟩
        · intro y hy
          rcases List.mem_cons.mp hy with rfl | hy2
          · exact hd
          · exact hall y hy2
      · have e : remapLoop ci (x :: xs) best (chromDist ci best) =
            remapLoop ci xs best (chromDist ci best) := by
          simp [remapLoop, h]
        rcases ih best with ⟨hm, hd, hall⟩
        rw [e]
        refine ⟨?_, hd, ?_⟩
        · rcases hm with h1 | ⟨h1, h2⟩
          · exact Or.inl h1
          · exact Or.inr ⟨List.mem_cons_of_mem x h1, h2⟩
        · intro y hy
          rcases List.mem_cons.mp hy with rfl | hy2
          · exact le_trans hd (not_lt.mp h)
          · exact hall y hy2

theorem remapLoop_first (ci : Int) : ∀ (xs : List Int) (best : Int) (i : Nat)
    (h : i < xs.length),
    chromDist ci (xs.get ⟨i, h⟩) = chromDist ci (remapLoop ci xs best (chromDist ci best)) →
    remapLoop ci xs best (chromDist ci best) = best ∨
      ∃ j, ∃ hj : j < xs.length, j ≤ i ∧
        xs.get ⟨j, hj⟩ = remapLoop ci xs best (chromDist ci best) := by
  intro xs
  induction xs with
  | nil =>
      intro best i h
      exact absurd h (Nat.not_lt_zero i)
  | cons x xs ih =>
      intro best i h hdist
      by_cases hb : chromDist ci x < chromDist ci best
      · have e : remapLoop ci (x :: xs) best (chromDist ci best) =
            remapLoop ci xs x (chromDist ci x) := by
          simp [remapLoop, hb]
        rw [e] at hdist ⊢
        rcases remapLoop_min ci xs x with ⟨hm, hd, hall⟩
        cases i with
        | zero =>
            rcases hm with h1 | ⟨h1, h2⟩
            · refine Or.inr ⟨0, h, Nat.le_refl 0, ?_⟩
              show x = remapLoop ci xs x (chromDist ci x)
              exact h1.symm
            · exfalso
              have hx0 : chromDist ci x =
                  chromDist ci (remapLoop ci xs x (chromDist ci x)) := hdist
              omega
        | succ i2 =>
            have h2 : i2 < xs.length := Nat.lt_of_succ_lt_succ h
            have hdist2 : chromDist ci (xs.get ⟨i2, h2⟩) =
                chromDist ci (remapLoop ci xs x (chromDist ci x)) := hdist
            rcases ih x i2 h2 hdist2 with h1 | ⟨j, hj, hji, hgj⟩
            · refine Or.inr ⟨0, Nat.succ_pos _, Nat.zero_le _, ?_⟩
              show x = remapLoop ci xs x (chromDist ci x)
              exact h1.symm
            · refine Or.inr ⟨j + 1, Nat.succ_lt_succ hj, Nat.succ_le_succ hji, ?_⟩
              show xs.get ⟨j, hj⟩ = remapLoop ci xs x (chromDist ci x)
              exact hgj
      · have e : remapLoop ci (x :: xs) best (chromDist ci best) =
            remapLoop ci xs best (chromDist ci best) := by
          simp [remapLoop, hb]
        rw [e] at hdist ⊢
        rcases remapLoop_min ci xs best with ⟨hm, hd, hall⟩
        cases i with
        | zero =>
            rcases hm with h1 | ⟨h1, h2⟩
            · exact Or.inl h1
            · exfalso
              have hx0 : chromDist ci x =
                  chromDist ci (remapLoop ci xs best (chromDist ci best)) := hdist
              omega
        | succ i2 =>
            have h2 : i2 < xs.length := Nat.lt_of_succ_lt_succ h
            have hdist2 : chromDist ci (xs.get ⟨i2, h2⟩) =
                chromDist ci (remapLoop ci xs best (chromDist ci best)) := hdist
            rcases ih best i2 h2 hdist2 with h1 | ⟨j, hj, hji, hgj⟩
            · exact Or.inl h1
            · refine Or.inr ⟨j + 1, Nat.succ_lt_succ hj, Nat.succ_le_succ hji, ?_⟩
              show xs.get ⟨j, hj⟩ = remapLoop ci xs best (chromDist ci best)
              exact hgj

theorem mem_noteOrder_ne_empty {t : String} (h : t ∈ noteOrder) : t ≠ "" := by
  intro he
  rw [he] at h
  revert h
  decide

/-! ## Claim C6: idempotence of the remap -/

theorem remapNote_result (ns : List (Option String)) (note : Option String) :
    remapNote ns note = none ∨
    ∃ t, remapNote ns note = some t ∧ t ≠ "" ∧ some t ∈ ns := by
  cases note with
  | none => exact Or.inl rfl
  | some s =>
      by_cases hs : s = ""
      · left
        simp [remapNote, hs]
      · by_cases hmem : some s ∈ ns
        · right
          exact ⟨s, by simp [remapNote, hs, hmem], hs, hmem⟩
        · cases hmap : ns.map (jsIndexOfOpt noteOrder) with
          | nil =>
              left
              have hns : ns = [] := List.map_eq_nil_iff.mp hmap
              subst hns
              simp [remapNote, hs]
          | cons c0 rest =>
              have heq : remapNote ns (some s) =
                  jsGet noteOrder
                    (remapLoop (jsIndexOf noteOrder s) (c0 :: rest) c0
                      (chromDist (jsIndexOf noteOrder s) c0)) := by
                simp only [remapNote, if_neg hs, if_neg hmem, hmap]
              rw [heq]
              have hrl := remapLoop_mem (jsIndexOf noteOrder s) (c0 :: rest) c0
                (chromDist (jsIndexOf noteOrder s) c0)
              have hrm : remapLoop (jsIndexOf noteOrder s) (c0 :: rest) c0
                  (chromDist (jsIndexOf noteOrder s) c0) ∈ c0 :: rest := by
                rcases hrl with h1 | h1
                · rw [h1]
                  exact List.mem_cons_self _ _
                · exact h1
              have hrm2 : remapLoop (jsIndexOf noteOrder s) (c0 :: rest) c0
                  (chromDist (jsIndexOf noteOrder s) c0) ∈
                    ns.map (jsIndexOfOpt noteOrder) := by
                rw [hmap]
                exact hrm
              obtain ⟨e, he, hfe⟩ := List.mem_map.mp hrm2
              cases e with
              | none =>
                  left
                  rw [← hfe]
                  rfl
              | some t =>
                  have hfe2 : jsIndexOf noteOrder t =
                      remapLoop (jsIndexOf noteOrder s) (c0 :: rest) c0
                        (chromDist (jsIndexOf noteOrder s) c0) := hfe
                  rw [← hfe2, jsGet_jsIndexOf]
                  by_cases ht : t ∈ noteOrder
                  · right
                    exact ⟨t, by rw [if_pos ht], mem_noteOrder_ne_empty ht, he⟩
                  · left
                    rw [if_neg ht]

theorem remapNote_idem (ns : List (Option String)) (note : Option String) :
    remapNote ns (remapNote ns note) = remapNote ns note := by
  rcases remapNote_result ns note with h | ⟨t, h, ht, hmem⟩
  · rw [h]
    rfl
  · rw [h]
    simp [remapNote, ht, hmem]

theorem updatePolygonNotes_idem (scale root : String) (p : Polygon) :
    updatePolygonNotes scale root (updatePolygonNotes scale root p) =
      updatePolygonNotes scale root p := by
  cases p with
  | mk pid sides active notes =>
      simp only [updatePolygonNotes, List.map_map, Polygon.mk.injEq, true_and]
      apply List.map_congr_left
      intro a _
      exact remapNote_idem _ a

/-- Claim C6: `updatePolygonNotesForNewScale` is idempotent — applying it
twice with the same target scale and root yields exactly the same polygon
collection and the same selected polygon as applying it once, for every
polygon collection, every selected polygon, and every (scale, root)
target (including unknown scale names and invalid roots). -/
theorem updatePolygonNotesForNewScale_idempotent (polygons : List Polygon)
    (selectedPolygon : Option Polygon) (selectedScale rootNote : String) :
    updatePolygonNotesForNewScale
      (updatePolygonNotesForNewScale polygons selectedPolygon selectedScale rootNote).1
      (updatePolygonNotesForNewScale polygons selectedPolygon selectedScale rootNote).2
      selectedScale rootNote =
    updatePolygonNotesForNewScale polygons selectedPolygon selectedScale rootNote := by
  unfold updatePolygonNotesForNewScale
  refine Prod.ext ?_ ?_
  · simp only [List.map_map]
    apply List.map_congr_left
    intro p _
    exact updatePolygonNotes_idem selectedScale rootNote p
  · cases selectedPolygon with
    | none => rfl
    | some p => exact congrArg some (updatePolygonNotes_idem selectedScale rootNote p)

/-! ## Claim C5: nearest-member remapping with first-encountered tie-break -/

/-- Claim C5: for every nonempty pitch `s` among the twelve names that is
not a member of the (nonempty, valid) target pitch set, the remap returns
a member `r` of the target set whose absolute chromatic distance to `s`
in the 12-tone ordering is minimal among all members, and `r` occurs in
the target set at a position no later than any member at the same
distance — ties are broken to the first encountered in iteration order
(e.g. input C#, target [C, D] in that order, yields C). -/
theorem remapNote_nearest_first (s : String) (ns : List (Option String))
    (hso : s ∈ noteOrder) (hnotmem : some s ∉ ns) (hne : ns ≠ [])
    (hvalid : ∀ x ∈ ns, ∃ t, x = some t ∧ t ∈ noteOrder) :
    ∃ r, remapNote ns (some s) = some r ∧ some r ∈ ns ∧
      (∀ t, some t ∈ ns →
        chromDist (jsIndexOf noteOrder s) (jsIndexOf noteOrder r) ≤
          chromDist (jsIndexOf noteOrder s) (jsIndexOf noteOrder t)) ∧
      (∀ i t, ns.get? i = some (some t) →
        chromDist (jsIndexOf noteOrder s) (jsIndexOf noteOrder t) =
          chromDist (jsIndexOf noteOrder s) (jsIndexOf noteOrder r) →
        ∃ j, j ≤ i ∧ ns.get? j = some (some r)) := by
  have hs : s ≠ "" := mem_noteOrder_ne_empty hso
  cases hmap : ns.map (jsIndexOfOpt noteOrder) with
  | nil => exact absurd (List.map_eq_nil_iff.mp hmap) hne
  | cons c0 rest =>
      have heq : remapNote ns (some s) =
          jsGet noteOrder
            (remapLoop (jsIndexOf noteOrder s) (c0 :: rest) c0
              (chromDist (jsIndexOf noteOrder s) c0)) := by
        simp only [remapNote, if_neg hs, if_neg hnotmem, hmap]
      have hrm : remapLoop (jsIndexOf noteOrder s) (c0 :: rest) c0
          (chromDist (jsIndexOf noteOrder s) c0) ∈ c0 :: rest := by
        rcases remapLoop_mem (jsIndexOf noteOrder s) (c0 :: rest) c0
            (chromDist (jsIndexOf noteOrder s) c0) with h1 | h1
        · rw [h1]
          exact List.mem_cons_self _ _
        · exact h1
      have hrm2 : remapLoop (jsIndexOf noteOrder s) (c0 :: rest) c0
          (chromDist (jsIndexOf noteOrder s) c0) ∈ ns.map (jsIndexOfOpt noteOrder) := by
        rw [hmap]
        exact hrm
      obtain ⟨e, he, hfe⟩ := List.mem_map.mp hrm2
      obtain ⟨u, rfl, hu⟩ := hvalid e he
      have hfe2 : jsIndexOf noteOrder u =
          remapLoop (jsIndexOf noteOrder s) (c0 :: rest) c0
            (chromDist (jsIndexOf noteOrder s) c0) := hfe
      -- any list position holding the loop result holds `some u`
      have hkey : ∀ j, (c0 :: rest).get? j =
          some (remapLoop (jsIndexOf noteOrder s) (c0 :: rest) c0
            (chromDist (jsIndexOf noteOrder s) c0)) →
          ns.get? j = some (some u) := by
        intro j hj
        have h1 : (ns.map (jsIndexOfOpt noteOrder)).get? j =
            some (remapLoop (jsIndexOf noteOrder s) (c0 :: rest) c0
              (chromDist (jsIndexOf noteOrder s) c0)) := by
          rw [hmap]
          exact hj
        rw [List.get?_map] at h1
        cases he2 : ns.get? j with
        | none =>
            rw [he2] at h1
            cases h1
        | some e2 =>
            rw [he2] at h1
            obtain ⟨w, rfl, hw⟩ := hvalid e2 (List.get?_mem he2)
            have h2 : jsIndexOf noteOrder w =
                remapLoop (jsIndexOf noteOrder s) (c0 :: rest) c0
                  (chromDist (jsIndexOf noteOrder s) c0) := Option.some.inj h1
            have h3 : some w = some u := by
              have hw2 := jsGet_of_mem hw
              have hu2 := jsGet_of_mem hu
              rw [h2, ← hfe2] at hw2
              exact hw2.symm.trans hu2
            exact congrArg some h3
      have hlen : ns.length = (c0 :: rest).length := by
        have := congrArg List.length hmap
        rwa [List.length_map] at this
      refine ⟨u, ?_, he, ?_, ?_⟩
      · rw [heq, ← hfe2]
        exact jsGet_of_mem hu
      · intro t htm
        have hmin := remapLoop_min (jsIndexOf noteOrder s) (c0 :: rest) c0
        have htm2 : jsIndexOf noteOrder t ∈ c0 :: rest := by
          have := List.mem_map_of_mem (jsIndexOfOpt noteOrder) htm
          rw [hmap] at this
          exact this
        have := hmin.2.2 (jsIndexOf noteOrder t) htm2
        rw [← hfe2] at this
        exact this
      · intro i t hget hdist
        obtain ⟨hi, hgi⟩ := List.get?_eq_some.mp hget
        have hi2 : i < (c0 :: rest).length := by
          rw [← hlen]
          exact hi
        have hgeti : (c0 :: rest).get ⟨i, hi2⟩ = jsIndexOf noteOrder t := by
          have h1 : (ns.map (jsIndexOfOpt noteOrder)).get? i =
              some (jsIndexOf noteOrder t) := by
            rw [List.get?_map, hget]
            rfl
          rw [hmap] at h1
          obtain ⟨h2, h3⟩ := List.get?_eq_some.mp h1
          exact h3
        have hdist2 : chromDist (jsIndexOf noteOrder s) ((c0 :: rest).get ⟨i, hi2⟩) =
            chromDist (jsIndexOf noteOrder s)
              (remapLoop (jsIndexOf noteOrder s) (c0 :: rest) c0
                (chromDist (jsIndexOf noteOrder s) c0)) := by
          rw [hgeti, hdist, ← hfe2]
        rcases remapLoop_first (jsIndexOf noteOrder s) (c0 :: rest) c0 i hi2 hdist2
          with h1 | ⟨j, hj, hji, hgj⟩
        · refine ⟨0, Nat.zero_le i, hkey 0 ?_⟩
          rw [h1]
          rfl
        · refine ⟨j, hji, hkey j ?_⟩
          rw [← hgj]
          exact List.get?_eq_some.mpr ⟨hj, rfl⟩

theorem remapNote_nearest_first_witness :
    ∃ r, remapNote [some "C", some "D"] (some "C#") = some r ∧
      some r ∈ [some "C", some "D"] ∧
      (∀ t, some t ∈ [some "C", some "D"] →
        chromDist (jsIndexOf noteOrder "C#") (jsIndexOf noteOrder r) ≤
          chromDist (jsIndexOf noteOrder "C#") (jsIndexOf noteOrder t)) ∧
      (∀ i t, ([some "C", some "D"] : List (Option String)).get? i = some (some t) →
        chromDist (jsIndexOf noteOrder "C#") (jsIndexOf noteOrder t) =
          chromDist (jsIndexOf noteOrder "C#") (jsIndexOf noteOrder r) →
        ∃ j, j ≤ i ∧ ([some "C", some "D"] : List (Option String)).get? j = some (some r)) :=
  remapNote_nearest_first "C#" [some "C", some "D"] (by decide) (by decide) (by decide)
    (by
      intro x hx
      rcases List.mem_cons.mp hx with rfl | hx2
      · exact ⟨"C", rfl, by decide⟩
      · rcases List.mem_cons.mp hx2 with rfl | hx3
        · exact ⟨"D", rfl, by decide⟩
        · cases hx3)
